import Mathlib

/-!
Verification of the MikroTik RouterOS telemetry agent core
(wire-protocol codec, circuit breaker, authentication state machine,
command executor, counter/rate engine, filtering and sampling,
utility parsers), shallowly embedded from the Go sources.

Machine bytes are modelled as `Nat` values below 256; Go's `byte(x)`
cast is `x % 256`; unsigned 64-bit arithmetic is `Nat` arithmetic
modulo `2 ^ 64`; byte streams are `List Nat`; a fallible read returns
`Option`.
-/

namespace ISPAgent

/-! ### Wire protocol codec: length encoding
From `EncodeLength` / `DecodeLength` in the api protocol file. -/

/-- Go `byte(x)` truncation. -/
def byteOf (n : Nat) : Nat := n % 256

/-- `EncodeLength` encodes a word length into 1..5 bytes
(RouterOS variable-width scheme), mirroring the Go source. -/
def EncodeLength (length : Nat) : List Nat :=
  if length < 0x80 then
    [byteOf length]
  else if length < 0x4000 then
    [byteOf ((length >>> 8) ||| 0x80),
     byteOf (length &&& 0xFF)]
  else if length < 0x200000 then
    [byteOf ((length >>> 16) ||| 0xC0),
     byteOf ((length >>> 8) &&& 0xFF),
     byteOf (length &&& 0xFF)]
  else if length < 0x10000000 then
    [byteOf ((length >>> 24) ||| 0xE0),
     byteOf ((length >>> 16) &&& 0xFF),
     byteOf ((length >>> 8) &&& 0xFF),
     byteOf (length &&& 0xFF)]
  else
    [0xF0,
     byteOf ((length >>> 24) &&& 0xFF),
     byteOf ((length >>> 16) &&& 0xFF),
     byteOf ((length >>> 8) &&& 0xFF),
     byteOf (length &&& 0xFF)]

/-- `DecodeLength` reads a length from a byte stream, returning the value
and the unread remainder; `none` models a read error on truncated input. -/
def DecodeLength : List Nat → Option (Nat × List Nat)
  | [] => none
  | b :: rest =>
    if b < 0x80 then
      some (b, rest)
    else if b < 0xC0 then
      match rest with
      | b2 :: rest2 => some ((((b &&& 0x3F) <<< 8) ||| b2), rest2)
      | [] => none
    else if b < 0xE0 then
      match rest with
      | b2 :: b3 :: rest3 =>
          some (((((b &&& 0x1F) <<< 16) ||| (b2 <<< 8)) ||| b3), rest3)
      | _ => none
    else if b < 0xF0 then
      match rest with
      | b2 :: b3 :: b4 :: rest4 =>
          some ((((((b &&& 0x0F) <<< 24) ||| (b2 <<< 16)) ||| (b3 <<< 8)) ||| b4), rest4)
      | _ => none
    else
      match rest with
      | b2 :: b3 :: b4 :: b5 :: rest5 =>
          some (((((b2 <<< 24) ||| (b3 <<< 16)) ||| (b4 <<< 8)) ||| b5), rest5)
      | _ => none

/- Arithmetic views of the bit operations used by the codec. -/

theorem or_eq_add_of_mod (k a y : Nat) (ha : a % 2 ^ k = 0) (hy : y < 2 ^ k) :
    a ||| y = a + y := by
  obtain ⟨x, hx⟩ : ∃ x, a = 2 ^ k * x :=
    ⟨a / 2 ^ k, by
      rw [Nat.mul_comm]
      exact (Nat.div_mul_cancel (Nat.dvd_of_mod_eq_zero ha)).symm⟩
  subst hx
  exact (Nat.mul_add_lt_is_or hy x).symm

theorem or_eq_add_32 (a y : Nat) (ha : a % 32 = 0) (hy : y < 32) : a ||| y = a + y :=
  or_eq_add_of_mod 5 a y (by omega) (by omega)

theorem or_eq_add_64 (a y : Nat) (ha : a % 64 = 0) (hy : y < 64) : a ||| y = a + y :=
  or_eq_add_of_mod 6 a y (by omega) (by omega)

theorem or_eq_add_128 (a y : Nat) (ha : a % 128 = 0) (hy : y < 128) : a ||| y = a + y :=
  or_eq_add_of_mod 7 a y (by omega) (by omega)

theorem or_eq_add_256 (a y : Nat) (ha : a % 256 = 0) (hy : y < 256) : a ||| y = a + y :=
  or_eq_add_of_mod 8 a y (by omega) (by omega)

theorem shl8_eq (x : Nat) : x <<< 8 = x * 256 := by
  rw [Nat.shiftLeft_eq]

theorem shl16_eq (x : Nat) : x <<< 16 = x * 65536 := by
  rw [Nat.shiftLeft_eq]

theorem shl24_eq (x : Nat) : x <<< 24 = x * 16777216 := by
  rw [Nat.shiftLeft_eq]

theorem shr8_eq (x : Nat) : x >>> 8 = x / 256 := by
  rw [Nat.shiftRight_eq_div_pow]

theorem shr16_eq (x : Nat) : x >>> 16 = x / 65536 := by
  rw [Nat.shiftRight_eq_div_pow]

theorem shr24_eq (x : Nat) : x >>> 24 = x / 16777216 := by
  rw [Nat.shiftRight_eq_div_pow]

theorem and_255_eq (x : Nat) : x &&& 0xFF = x % 256 := by
  have h := Nat.and_pow_two_sub_one_eq_mod x 8
  norm_num at h
  exact h

theorem and_63_eq (x : Nat) : x &&& 0x3F = x % 64 := by
  have h := Nat.and_pow_two_sub_one_eq_mod x 6
  norm_num at h
  exact h

theorem and_31_eq (x : Nat) : x &&& 0x1F = x % 32 := by
  have h := Nat.and_pow_two_sub_one_eq_mod x 5
  norm_num at h
  exact h

theorem and_15_eq (x : Nat) : x &&& 0x0F = x % 16 := by
  have h := Nat.and_pow_two_sub_one_eq_mod x 4
  norm_num at h
  exact h

theorem or_128_eq (x : Nat) (hx : x < 0x80) : x ||| 0x80 = x + 0x80 := by
  rw [Nat.lor_comm, or_eq_add_128 128 x (by norm_num) hx]
  omega

theorem or_192_eq (x : Nat) (hx : x < 0x40) : x ||| 0xC0 = x + 0xC0 := by
  rw [Nat.lor_comm, or_eq_add_64 192 x (by norm_num) hx]
  omega

theorem or_224_eq (x : Nat) (hx : x < 0x20) : x ||| 0xE0 = x + 0xE0 := by
  rw [Nat.lor_comm, or_eq_add_32 224 x (by norm_num) hx]
  omega

theorem decode2_eq (b b2 : Nat) (h2 : b2 < 256) :
    ((b &&& 0x3F) <<< 8) ||| b2 = (b % 64) * 256 + b2 := by
  rw [and_63_eq, shl8_eq, or_eq_add_256 _ _ (by omega) h2]

theorem decode3_eq (b b2 b3 : Nat) (h2 : b2 < 256) (h3 : b3 < 256) :
    (((b &&& 0x1F) <<< 16) ||| (b2 <<< 8)) ||| b3
      = (b % 32) * 65536 + b2 * 256 + b3 := by
  rw [and_31_eq, shl16_eq, shl8_eq]
  have s1 : (b % 32) * 65536 ||| b2 * 256 = (b % 32) * 65536 + b2 * 256 :=
    or_eq_add_of_mod 16 _ _ (by omega) (by omega)
  rw [s1, or_eq_add_256 _ _ (by omega) h3]

theorem decode4_eq (b b2 b3 b4 : Nat) (h2 : b2 < 256) (h3 : b3 < 256) (h4 : b4 < 256) :
    ((((b &&& 0x0F) <<< 24) ||| (b2 <<< 16)) ||| (b3 <<< 8)) ||| b4
      = (b % 16) * 16777216 + b2 * 65536 + b3 * 256 + b4 := by
  rw [and_15_eq, shl24_eq, shl16_eq, shl8_eq]
  have s1 : (b % 16) * 16777216 ||| b2 * 65536
      = (b % 16) * 16777216 + b2 * 65536 :=
    or_eq_add_of_mod 24 _ _ (by omega) (by omega)
  rw [s1]
  have s2 : (b % 16) * 16777216 + b2 * 65536 ||| b3 * 256
      = (b % 16) * 16777216 + b2 * 65536 + b3 * 256 :=
    or_eq_add_of_mod 16 _ _ (by omega) (by omega)
  rw [s2, or_eq_add_256 _ _ (by omega) h4]

theorem decode5_eq (b2 b3 b4 b5 : Nat) (h3 : b3 < 256) (h4 : b4 < 256) (h5 : b5 < 256) :
    (((b2 <<< 24) ||| (b3 <<< 16)) ||| (b4 <<< 8)) ||| b5
      = b2 * 16777216 + b3 * 65536 + b4 * 256 + b5 := by
  rw [shl24_eq, shl16_eq, shl8_eq]
  have s1 : b2 * 16777216 ||| b3 * 65536 = b2 * 16777216 + b3 * 65536 :=
    or_eq_add_of_mod 24 _ _ (by omega) (by omega)
  rw [s1]
  have s2 : b2 * 16777216 + b3 * 65536 ||| b4 * 256
      = b2 * 16777216 + b3 * 65536 + b4 * 256 :=
    or_eq_add_of_mod 16 _ _ (by omega) (by omega)
  rw [s2, or_eq_add_256 _ _ (by omega) h5]

/-- C3: for every length L below 2^32, decoding the bytes produced by
EncodeLength L yields exactly L with no bytes left over (the variable-width
length encoding round-trips on all of [0, 2^32)). -/
theorem encodeLength_decodeLength_roundtrip (L : Nat) (h : L < 2 ^ 32) :
    DecodeLength (EncodeLength L) = some (L, []) := by
  by_cases h1 : L < 0x80
  · simp only [EncodeLength, if_pos h1, byteOf, DecodeLength]
    rw [if_pos (by omega : L % 256 < 0x80)]
    congr 1
    congr 1
    omega
  · by_cases h2 : L < 0x4000
    · simp only [EncodeLength, if_neg h1, if_pos h2, byteOf, DecodeLength]
      rw [shr8_eq, and_255_eq, or_128_eq (L / 256) (by omega)]
      have hb1 : (L / 256 + 0x80) % 256 = L / 256 + 0x80 := by omega
      have hb2 : L % 256 % 256 = L % 256 := by omega
      rw [hb1, hb2, if_neg (by omega), if_pos (by omega),
        decode2_eq _ _ (by omega)]
      congr 1
      congr 1
      omega
    · by_cases h3 : L < 0x200000
      · simp only [EncodeLength, if_neg h1, if_neg h2, if_pos h3, byteOf, DecodeLength]
        rw [shr16_eq, shr8_eq, and_255_eq, and_255_eq,
          or_192_eq (L / 65536) (by omega)]
        have hb1 : (L / 65536 + 0xC0) % 256 = L / 65536 + 0xC0 := by omega
        have hb2 : L / 256 % 256 % 256 = L / 256 % 256 := by omega
        have hb3 : L % 256 % 256 = L % 256 := by omega
        rw [hb1, hb2, hb3, if_neg (by omega), if_neg (by omega), if_pos (by omega),
          decode3_eq _ _ _ (by omega) (by omega)]
        congr 1
        congr 1
        omega
      · by_cases h4 : L < 0x10000000
        · simp only [EncodeLength, if_neg h1, if_neg h2, if_neg h3, if_pos h4, byteOf,
            DecodeLength]
          rw [shr24_eq, shr16_eq, shr8_eq, and_255_eq, and_255_eq, and_255_eq,
            or_224_eq (L / 16777216) (by omega)]
          have hb1 : (L / 16777216 + 0xE0) % 256 = L / 16777216 + 0xE0 := by omega
          have hb2 : L / 65536 % 256 % 256 = L / 65536 % 256 := by omega
          have hb3 : L / 256 % 256 % 256 = L / 256 % 256 := by omega
          have hb4 : L % 256 % 256 = L % 256 := by omega
          rw [hb1, hb2, hb3, hb4, if_neg (by omega), if_neg (by omega),
            if_neg (by omega), if_pos (by omega),
            decode4_eq _ _ _ _ (by omega) (by omega) (by omega)]
          congr 1
          congr 1
          omega
        · simp only [EncodeLength, if_neg h1, if_neg h2, if_neg h3, if_neg h4, byteOf,
            DecodeLength]
          rw [shr24_eq, shr16_eq, shr8_eq, and_255_eq, and_255_eq, and_255_eq,
            and_255_eq]
          have hb1 : L / 16777216 % 256 % 256 = L / 16777216 % 256 := by omega
          have hb2 : L / 65536 % 256 % 256 = L / 65536 % 256 := by omega
          have hb3 : L / 256 % 256 % 256 = L / 256 % 256 := by omega
          have hb4 : L % 256 % 256 = L % 256 := by omega
          rw [hb1, hb2, hb3, hb4, if_neg (by norm_num), if_neg (by norm_num),
            if_neg (by norm_num), if_neg (by norm_num),
            decode5_eq _ _ _ _ (by omega) (by omega) (by omega)]
          congr 1
          congr 1
          omega

/-- C3 witness: the round-trip evaluated at the concrete length 305419896. -/
theorem encodeLength_decodeLength_roundtrip_witness :
    DecodeLength (EncodeLength 0x12345678) = some (0x12345678, []) :=
  encodeLength_decodeLength_roundtrip 0x12345678 (by norm_num)


/-! ### Counter wraparound handlers
From `Handle32BitCounterWrap` / `Handle64BitCounterWrap` in pppoe utils. -/

/-- Go uint64 truncation. -/
def wrap64 (n : Nat) : Nat := n % 2 ^ 64

/-- Go uint64 subtraction `a - b` (wraps on underflow), for `a b < 2 ^ 64`. -/
def sub64 (a b : Nat) : Nat := (a + 2 ^ 64 - b) % 2 ^ 64

/-- `Handle32BitCounterWrap` from the Go source: delta between `current` and
`previous` assuming a 32-bit counter, computed in uint64 arithmetic. -/
def Handle32BitCounterWrap (current previous : Nat) : Nat :=
  if previous ≤ current then
    sub64 current previous
  else
    wrap64 (sub64 0xFFFFFFFF previous + current + 1)

/-- `Handle64BitCounterWrap` from the Go source: delta between `current` and
`previous` assuming a 64-bit counter, computed in uint64 arithmetic. -/
def Handle64BitCounterWrap (current previous : Nat) : Nat :=
  if previous ≤ current then
    sub64 current previous
  else
    wrap64 (sub64 0xFFFFFFFFFFFFFFFF previous + current + 1)

/-- C4 counterexample: the claim quantifies over all uint64 inputs, but the
32-bit handler underflows when `previous` exceeds `2^32 - 1`: at
`current = 5`, `previous = 2^32 + 10` the Go computation yields the huge
wrapped value `2^64 - 5`, which is neither `(2^32 - 1 - previous) + current + 1`
as a mathematical integer nor a bounded delta. -/
theorem handle32_underflow_counterexample :
    Handle32BitCounterWrap 5 (2 ^ 32 + 10) = 2 ^ 64 - 5 ∧
    2 ^ 32 < Handle32BitCounterWrap 5 (2 ^ 32 + 10) := by
  refine ⟨rfl, ?_⟩
  norm_num [Handle32BitCounterWrap, sub64, wrap64]

/-- C4 (amended): for uint64 inputs, `current ≥ previous` gives
`current - previous` in both handlers; `current < previous` gives the exact
wraparound formula and a bounded result for the 64-bit handler, and for the
32-bit handler the same holds provided `previous` fits in 32 bits (the
handler's intended domain); `Handle64BitCounterWrap 100 (2^64 - 10) = 110`. -/
theorem counterWrap_amended :
    (∀ current previous : Nat, current < 2 ^ 64 → previous < 2 ^ 64 →
      (previous ≤ current →
        Handle64BitCounterWrap current previous = current - previous ∧
        Handle32BitCounterWrap current previous = current - previous) ∧
      (current < previous →
        Handle64BitCounterWrap current previous = (2 ^ 64 - 1 - previous) + current + 1 ∧
        Handle64BitCounterWrap current previous < 2 ^ 64) ∧
      (current < previous → previous ≤ 2 ^ 32 - 1 →
        Handle32BitCounterWrap current previous = (2 ^ 32 - 1 - previous) + current + 1 ∧
        Handle32BitCounterWrap current previous < 2 ^ 32)) ∧
    Handle64BitCounterWrap 100 (2 ^ 64 - 10) = 110 := by
  constructor
  · intro current previous hc hp
    refine ⟨fun hle => ?_, fun hlt => ?_, fun hlt hp32 => ?_⟩
    · simp only [Handle64BitCounterWrap, Handle32BitCounterWrap, if_pos hle,
        sub64]
      omega
    · simp only [Handle64BitCounterWrap, if_neg (by omega : ¬ previous ≤ current),
        sub64, wrap64]
      omega
    · simp only [Handle32BitCounterWrap, if_neg (by omega : ¬ previous ≤ current),
        sub64, wrap64]
      omega
  · rfl

/-- C4 witness: the amended theorem applied at concrete inputs. -/
theorem counterWrap_amended_witness :
    (Handle32BitCounterWrap 3 7 = (2 ^ 32 - 1 - 7) + 3 + 1 ∧
     Handle32BitCounterWrap 3 7 < 2 ^ 32) ∧
    Handle64BitCounterWrap 100 50 = 100 - 50 :=
  ⟨(counterWrap_amended.1 3 7 (by norm_num) (by norm_num)).2.2 (by norm_num)
      (by norm_num),
   ((counterWrap_amended.1 100 50 (by norm_num) (by norm_num)).1 (by norm_num)).1⟩

/-! ### Circuit breaker
From `circuitBreaker` and its methods in the api client. Wall-clock time is
modelled as a natural number of time units; `time.Since lastFailure` at time
`now` is `now - lastFailure`. -/

inductive CircuitState where
  | circuitClosed
  | circuitOpen
  | circuitHalfOpen
deriving DecidableEq, Repr

structure CircuitBreaker where
  failures : Nat
  maxFailures : Nat
  state : CircuitState
  lastFailure : Nat
  resetTimeout : Nat
  halfOpenAttempts : Nat
deriving DecidableEq, Repr

/-- `newCircuitBreaker` with Go zero values for the remaining fields. -/
def newCircuitBreaker (maxFailures resetTimeout : Nat) : CircuitBreaker :=
  { failures := 0
    maxFailures := maxFailures
    state := CircuitState.circuitClosed
    lastFailure := 0
    resetTimeout := resetTimeout
    halfOpenAttempts := 0 }

/-- `canAttempt` evaluated at time `now`; returns the decision together with
the (possibly updated) breaker, mirroring the Open-to-HalfOpen transition. -/
def canAttempt (now : Nat) (cb : CircuitBreaker) : Bool × CircuitBreaker :=
  match cb.state with
  | CircuitState.circuitClosed => (true, cb)
  | CircuitState.circuitOpen =>
    if cb.resetTimeout < now - cb.lastFailure then
      (true, { cb with state := CircuitState.circuitHalfOpen, halfOpenAttempts := 0 })
    else
      (false, cb)
  | CircuitState.circuitHalfOpen =>
    (decide (cb.halfOpenAttempts < 1), cb)

/-- `recordSuccess`. -/
def recordSuccess (cb : CircuitBreaker) : CircuitBreaker :=
  { cb with failures := 0, state := CircuitState.circuitClosed }

/-- `recordFailure` at time `now`. -/
def recordFailure (now : Nat) (cb : CircuitBreaker) : CircuitBreaker :=
  let cb1 := { cb with failures := cb.failures + 1, lastFailure := now }
  if cb1.state = CircuitState.circuitHalfOpen then
    { cb1 with state := CircuitState.circuitOpen }
  else if cb1.maxFailures ≤ cb1.failures then
    { cb1 with state := CircuitState.circuitOpen }
  else
    cb1

/-- `reset`. -/
def resetBreaker (cb : CircuitBreaker) : CircuitBreaker :=
  { cb with failures := 0, state := CircuitState.circuitClosed }

/-- Folding `recordFailure` over a list of failure times. -/
def recordFailures (times : List Nat) (cb : CircuitBreaker) : CircuitBreaker :=
  times.foldl (fun c t => recordFailure t c) cb

theorem recordFailure_not_halfOpen (now : Nat) (cb : CircuitBreaker) :
    (recordFailure now cb).state ≠ CircuitState.circuitHalfOpen := by
  unfold recordFailure
  by_cases h1 : cb.state = CircuitState.circuitHalfOpen
  · simp [h1]
  · by_cases h2 : cb.maxFailures ≤ cb.failures + 1
    · simp [h1, h2]
    · simp [h1, h2]

theorem recordFailure_fields (now : Nat) (cb : CircuitBreaker) :
    (recordFailure now cb).failures = cb.failures + 1 ∧
    (recordFailure now cb).lastFailure = now ∧
    (recordFailure now cb).maxFailures = cb.maxFailures ∧
    (recordFailure now cb).resetTimeout = cb.resetTimeout ∧
    (recordFailure now cb).halfOpenAttempts = cb.halfOpenAttempts := by
  unfold recordFailure
  by_cases h1 : cb.state = CircuitState.circuitHalfOpen
  · simp [h1]
  · by_cases h2 : cb.maxFailures ≤ cb.failures + 1
    · simp [h1, h2]
    · simp [h1, h2]

theorem recordFailure_opens (now : Nat) (cb : CircuitBreaker)
    (h : cb.maxFailures ≤ cb.failures + 1) :
    (recordFailure now cb).state = CircuitState.circuitOpen := by
  unfold recordFailure
  by_cases h1 : cb.state = CircuitState.circuitHalfOpen
  · simp [h1]
  · simp [h1, h]

theorem getLastD_irrel (l : List Nat) (a b : Nat) (h : l ≠ []) :
    l.getLastD a = l.getLastD b := by
  cases l with
  | nil => exact absurd rfl h
  | cons x xs => simp [List.getLastD]

theorem recordFailures_from_closed (times : List Nat) :
    ∀ cb : CircuitBreaker, cb.state ≠ CircuitState.circuitHalfOpen →
    (recordFailures times cb).failures = cb.failures + times.length ∧
    (recordFailures times cb).maxFailures = cb.maxFailures ∧
    (recordFailures times cb).resetTimeout = cb.resetTimeout ∧
    (recordFailures times cb).state ≠ CircuitState.circuitHalfOpen ∧
    (times ≠ [] → (recordFailures times cb).lastFailure = times.getLastD 0) ∧
    (times ≠ [] → cb.maxFailures ≤ cb.failures + times.length →
      (recordFailures times cb).state = CircuitState.circuitOpen) := by
  induction times with
  | nil =>
    intro cb hcb
    exact ⟨rfl, rfl, rfl, hcb, fun hne => absurd rfl hne, fun hne => absurd rfl hne⟩
  | cons t ts ih =>
    intro cb hcb
    obtain ⟨s1, s2, s3, s4, s5⟩ := recordFailure_fields t cb
    have hstepState := recordFailure_not_halfOpen t cb
    obtain ⟨h1, h2, h3, h4, h5, h6⟩ := ih (recordFailure t cb) hstepState
    have hfold : recordFailures (t :: ts) cb = recordFailures ts (recordFailure t cb) := rfl
    rw [hfold]
    refine ⟨by simp; omega, by omega, by omega, h4, ?_, ?_⟩
    · intro _
      rcases hts : ts with _ | ⟨t2, ts2⟩
      · subst hts
        simpa [recordFailures, List.getLastD] using s2
      · have hne2 : ts ≠ [] := by simp [hts]
        rw [← hts, h5 hne2]
        rw [hts]
        simp [List.getLastD]
    · intro _ hmaxTotal
      rcases hts : ts with _ | ⟨t2, ts2⟩
      · subst hts
        simp only [recordFailures, List.foldl_nil]
        exact recordFailure_opens t cb (by simp at hmaxTotal; omega)
      · have hne2 : ts ≠ [] := by simp [hts]
        rw [← hts]
        refine h6 hne2 ?_
        have hlen : (t :: ts).length = ts.length + 1 := rfl
        omega

/-- C2 counterexample: with `maxFailures = 1`, `resetTimeout = 5`, one
failure at time 0 opens the breaker; at time 6 the first `canAttempt` is
permitted and moves to HalfOpen, and a second `canAttempt` with no
intervening `recordSuccess` or `recordFailure` is PERMITTED (returns true),
not denied as the claim states: `halfOpenAttempts` is never incremented. -/
theorem circuitBreaker_secondTrial_counterexample :
    (recordFailure 0 (newCircuitBreaker 1 5)).state = CircuitState.circuitOpen ∧
    (canAttempt 6 (recordFailure 0 (newCircuitBreaker 1 5))).1 = true ∧
    ((canAttempt 6 (recordFailure 0 (newCircuitBreaker 1 5))).2).state
      = CircuitState.circuitHalfOpen ∧
    (canAttempt 6 ((canAttempt 6 (recordFailure 0 (newCircuitBreaker 1 5))).2)).1
      = true := by
  refine ⟨rfl, rfl, rfl, rfl⟩

/-- C2 (amended): after `maxFailures` consecutive recorded failures the
breaker is Open and `canAttempt` is denied until strictly more than
`resetTimeout` has elapsed since the last failure; after that a trial is
permitted and the breaker is HalfOpen; in HalfOpen every `canAttempt` with
`halfOpenAttempts = 0` is permitted (the counter is reset on transition and
never incremented, so repeated trials are all allowed until an outcome is
recorded); `recordFailure` while HalfOpen returns the breaker to Open
immediately. -/
theorem circuitBreaker_amended (maxF resetT : Nat) (times : List Nat)
    (_hmax : 1 ≤ maxF) (hlen : times.length = maxF) (hne : times ≠ []) :
    ((recordFailures times (newCircuitBreaker maxF resetT)).state
      = CircuitState.circuitOpen) ∧
    (∀ now : Nat,
      now - times.getLastD 0 ≤ resetT →
      canAttempt now (recordFailures times (newCircuitBreaker maxF resetT))
        = (false, recordFailures times (newCircuitBreaker maxF resetT))) ∧
    (∀ now : Nat,
      resetT < now - times.getLastD 0 →
      (canAttempt now (recordFailures times (newCircuitBreaker maxF resetT))).1
          = true ∧
      ((canAttempt now (recordFailures times (newCircuitBreaker maxF resetT))).2).state
          = CircuitState.circuitHalfOpen ∧
      ((canAttempt now (recordFailures times (newCircuitBreaker maxF resetT))).2).halfOpenAttempts
          = 0) ∧
    (∀ (cb : CircuitBreaker) (now : Nat),
      cb.state = CircuitState.circuitHalfOpen → cb.halfOpenAttempts = 0 →
      canAttempt now cb = (true, cb)) ∧
    (∀ (cb : CircuitBreaker) (now : Nat),
      cb.state = CircuitState.circuitHalfOpen →
      (recordFailure now cb).state = CircuitState.circuitOpen) := by
  have hbase := recordFailures_from_closed times (newCircuitBreaker maxF resetT)
    (by simp [newCircuitBreaker])
  have hopen : (recordFailures times (newCircuitBreaker maxF resetT)).state
      = CircuitState.circuitOpen := by
    refine hbase.2.2.2.2.2 hne ?_
    simp [newCircuitBreaker, hlen]
  have hlast : (recordFailures times (newCircuitBreaker maxF resetT)).lastFailure
      = times.getLastD 0 := hbase.2.2.2.2.1 hne
  have hreset : (recordFailures times (newCircuitBreaker maxF resetT)).resetTimeout
      = resetT := by
    have := hbase.2.2.1
    simpa [newCircuitBreaker] using this
  refine ⟨hopen, ?_, ?_, ?_, ?_⟩
  · intro now hnow
    simp only [canAttempt, hopen, hreset, hlast]
    rw [if_neg (by omega)]
  · intro now hnow
    simp only [canAttempt, hopen, hreset, hlast]
    rw [if_pos (by omega)]
    exact ⟨rfl, rfl, rfl⟩
  · intro cb now hstate hcount
    simp [canAttempt, hstate, hcount]
  · intro cb now hstate
    simp [recordFailure, hstate]

/-- C2 witness: the amended theorem applied to a breaker with
`maxFailures = 2`, `resetTimeout = 5` and failures at times 1 and 3. -/
theorem circuitBreaker_amended_witness :
    ((recordFailures [1, 3] (newCircuitBreaker 2 5)).state
      = CircuitState.circuitOpen) ∧
    canAttempt 8 (recordFailures [1, 3] (newCircuitBreaker 2 5))
      = (false, recordFailures [1, 3] (newCircuitBreaker 2 5)) ∧
    (canAttempt 9 (recordFailures [1, 3] (newCircuitBreaker 2 5))).1 = true :=
  ⟨(circuitBreaker_amended 2 5 [1, 3] (by norm_num) (by simp) (by simp)).1,
   (circuitBreaker_amended 2 5 [1, 3] (by norm_num) (by simp) (by simp)).2.1 8
     (by simp [List.getLastD]),
   ((circuitBreaker_amended 2 5 [1, 3] (by norm_num) (by simp) (by simp)).2.2.1 9
     (by simp [List.getLastD])).1⟩



/-! ### Interface name filtering
From `MatchFilter` / `matchGlob` in pppoe utils. Go strings are modelled as
`List Char`; `strings.Split(pattern, "*")` is `List.splitOn`, and
`strings.HasPrefix` / `strings.HasSuffix` are `List.isPrefixOf` /
`List.isSuffixOf`. The Go parameter names `include` / `exclude` are rendered
`includeL` / `exclude` (`include` is a Lean keyword). -/

/-- `matchGlob` from the Go source: simple glob matching with the `*`
wildcard; exactly one `*` splits the pattern into a required front part and
a required back part; otherwise the comparison is literal. -/
def matchGlob (pattern s : List Char) : Bool :=
  if pattern.isEmpty then s.isEmpty
  else if pattern.contains '*' then
    match pattern.splitOn '*' with
    | [part0, part1] => part0.isPrefixOf s && part1.isSuffixOf s
    | _ => pattern == s
  else pattern == s

/-- `MatchFilter` from the Go source: a name passes when the include list is
empty or some include pattern matches, and no exclude pattern matches. -/
def MatchFilter (name : List Char) (includeL exclude : List (List Char)) : Bool :=
  let included := includeL.isEmpty || includeL.any (fun p => matchGlob p name)
  if !included then false
  else !(exclude.any (fun p => matchGlob p name))

theorem contains_true_iff (l : List Char) (a : Char) :
    l.contains a = true ↔ a ∈ l := by
  simp [List.contains]

theorem contains_false_iff (l : List Char) (a : Char) :
    l.contains a = false ↔ a ∉ l := by
  rw [← Bool.not_eq_true, contains_true_iff]

theorem length_splitOnP (p : Char → Bool) (xs : List Char) :
    (xs.splitOnP p).length = xs.countP p + 1 := by
  induction xs with
  | nil => simp
  | cons x xs ih =>
    rw [List.splitOnP_cons]
    by_cases h : p x
    · simp [h, ih, List.countP_cons]
    · simp [h, ih, List.countP_cons]

theorem matchFilter_eq_and (name : List Char) (includeL exclude : List (List Char)) :
    MatchFilter name includeL exclude
      = ((includeL.isEmpty || includeL.any (fun p => matchGlob p name)) &&
          !(exclude.any (fun p => matchGlob p name))) := by
  simp only [MatchFilter]
  rcases hb : (includeL.isEmpty || includeL.any fun p => matchGlob p name) with _ | _ <;>
    simp [hb]

theorem matchGlob_no_star (p name : List Char) (h : p.contains '*' = false) :
    matchGlob p name = true ↔ name = p := by
  rcases hp : p with _ | ⟨c, cs⟩
  · simp [matchGlob]
  · rw [← hp]
    have hne : p.isEmpty = false := by simp [hp]
    simp only [matchGlob, hne, h]
    simp only [Bool.false_eq_true, if_false, beq_iff_eq]
    exact eq_comm

theorem matchGlob_one_star (pre suf name : List Char)
    (hpre : pre.contains '*' = false) (hsuf : suf.contains '*' = false) :
    matchGlob (pre ++ '*' :: suf) name = true ↔
      (pre <+: name ∧ suf <:+ name) := by
  have hpre2 : '*' ∉ pre := (contains_false_iff pre '*').mp hpre
  have hsuf2 : '*' ∉ suf := (contains_false_iff suf '*').mp hsuf
  have hconts : (pre ++ '*' :: suf).contains '*' = true := by
    rw [contains_true_iff]
    simp
  have hne : (pre ++ '*' :: suf).isEmpty = false := by
    rcases pre with _ | ⟨c, cs⟩ <;> simp
  have hsplit : (pre ++ '*' :: suf).splitOn '*' = [pre, suf] := by
    unfold List.splitOn
    rw [List.splitOnP_first _ _ (by
        intro x hx
        simp only [beq_iff_eq]
        intro hxeq
        subst hxeq
        exact hpre2 hx) '*' (by simp) suf]
    rw [List.splitOnP_eq_single _ _ (by
        intro x hx
        simp only [beq_iff_eq]
        intro hxeq
        subst hxeq
        exact hsuf2 hx)]
  simp only [matchGlob, hne, hconts, hsplit]
  simp

/-- C7: MatchFilter passes a name iff (include list empty or some include
pattern matches) and no exclude pattern matches; a pattern with exactly one
`*` matches as required front part plus required back part, a star-free
pattern matches only the identical name, the empty pattern matches only the
empty name; and the three reference examples from the spec hold. -/
theorem matchFilter_spec :
    (∀ (name : List Char) (includeL exclude : List (List Char)),
      MatchFilter name includeL exclude = true ↔
        ((includeL = [] ∨ ∃ p ∈ includeL, matchGlob p name = true) ∧
         ∀ p ∈ exclude, matchGlob p name = false)) ∧
    (∀ (pre suf name : List Char),
      pre.contains '*' = false → suf.contains '*' = false →
      (matchGlob (pre ++ '*' :: suf) name = true ↔
        (pre <+: name ∧ suf <:+ name))) ∧
    (∀ (p name : List Char), p.contains '*' = false →
      (matchGlob p name = true ↔ name = p)) ∧
    (∀ name : List Char, matchGlob [] name = true ↔ name = []) ∧
    MatchFilter "ether1-wan".toList ["ether*".toList] ["*-wan".toList] = false ∧
    MatchFilter "ether1".toList ["ether*".toList] [] = true ∧
    MatchFilter "bridge1".toList [] [] = true := by
  refine ⟨?_, matchGlob_one_star, matchGlob_no_star, ?_, ?_, ?_, ?_⟩
  · intro name includeL exclude
    rw [matchFilter_eq_and]
    simp [List.any_eq_true, List.isEmpty_iff]
  · intro name
    simp [matchGlob]
  · decide
  · decide
  · decide

/-- C7 witness: the one-star clause of the theorem applied to the concrete
pattern `eth*0` and name `eth10`. -/
theorem matchFilter_spec_witness :
    matchGlob ("eth".toList ++ '*' :: "0".toList) "eth10".toList = true ↔
      ("eth".toList <+: "eth10".toList ∧ "0".toList <:+ "eth10".toList) :=
  matchFilter_spec.2.1 "eth".toList "0".toList "eth10".toList (by decide) (by decide)

theorem count_pos_of_two_le (pattern : List Char) (hcount : 2 ≤ pattern.count '*') :
    pattern.contains '*' = true := by
  rw [contains_true_iff]
  by_contra hmem
  have : pattern.count '*' = 0 := by
    rw [List.count_eq_zero]
    exact hmem
  omega

/-- C10: a pattern with two or more `*` characters degrades to a literal
comparison in matchGlob — it matches exactly the names equal to the pattern
character for character, hence only names that themselves contain `*`. -/
theorem matchGlob_multistar_literal :
    (∀ pattern s : List Char, 2 ≤ pattern.count '*' →
      matchGlob pattern s = (pattern == s)) ∧
    (∀ pattern s : List Char, 2 ≤ pattern.count '*' →
      matchGlob pattern s = true → s.contains '*' = true) ∧
    matchGlob "a*b*".toList "a*b*".toList = true ∧
    matchGlob "a*b*".toList "aXbY".toList = false := by
  have hmain : ∀ pattern s : List Char, 2 ≤ pattern.count '*' →
      matchGlob pattern s = (pattern == s) := by
    intro pattern s hcount
    have hne : pattern.isEmpty = false := by
      rcases pattern with _ | _
      · simp [List.count] at hcount
      · simp
    have hcont := count_pos_of_two_le pattern hcount
    have hlen : (pattern.splitOn '*').length = pattern.count '*' + 1 := by
      unfold List.splitOn
      rw [length_splitOnP]
      rfl
    simp only [matchGlob, hne, hcont, Bool.false_eq_true, if_false, if_true]
    rcases hsp : pattern.splitOn '*' with _ | ⟨a, _ | ⟨b, _ | ⟨c, t⟩⟩⟩
    · rfl
    · rfl
    · rw [hsp] at hlen
      simp at hlen
      omega
    · rfl
  refine ⟨hmain, ?_, by decide, by decide⟩
  intro pattern s hcount hmatch
  rw [hmain pattern s hcount] at hmatch
  have heq : pattern = s := by simpa using hmatch
  subst heq
  exact count_pos_of_two_le pattern hcount

/-- C10 witness: the literal-comparison clause applied to the pattern
`a*b*` and the non-identical name `x`. -/
theorem matchGlob_multistar_literal_witness :
    matchGlob "a*b*".toList "x".toList = ("a*b*".toList == "x".toList) :=
  matchGlob_multistar_literal.1 "a*b*".toList "x".toList (by decide)


/-! ### Interface rate tracker
From `interfaceState` / `interfaceTracker.updateAndCalculateRates` in the
interfaces collector. Wall-clock time is a rational number of seconds
(`time.Time` zero value is time 0; `time.Now()` of a real clock is nonzero);
float64 rates are modelled as exact rationals. The tracker map is an
association list where `lookup` finds the most recent insertion. -/

structure interfaceState where
  rxBytes : Nat
  txBytes : Nat
  rxPackets : Nat
  txPackets : Nat
  timestamp : ℚ
deriving DecidableEq, Repr

/-- `updateAndCalculateRates` evaluated at time `now`: returns the four
rates (rx bytes/s, tx bytes/s, rx pkts/s, tx pkts/s) and the updated state
map, mirroring the Go method body. -/
def updateAndCalculateRates (states : List (String × interfaceState)) (now : ℚ)
    (name : String) (rxBytes txBytes rxPkts txPkts : Nat) :
    (ℚ × ℚ × ℚ × ℚ) × List (String × interfaceState) :=
  let rates : ℚ × ℚ × ℚ × ℚ :=
    match states.lookup name with
    | some prev =>
      if prev.timestamp ≠ 0 then
        let elapsed := now - prev.timestamp
        if 0 < elapsed then
          ((Handle64BitCounterWrap rxBytes prev.rxBytes : ℚ) / elapsed,
           (Handle64BitCounterWrap txBytes prev.txBytes : ℚ) / elapsed,
           (Handle64BitCounterWrap rxPkts prev.rxPackets : ℚ) / elapsed,
           (Handle64BitCounterWrap txPkts prev.txPackets : ℚ) / elapsed)
        else (0, 0, 0, 0)
      else (0, 0, 0, 0)
    | none => (0, 0, 0, 0)
  (rates, (name, ⟨rxBytes, txBytes, rxPkts, txPkts, now⟩) :: states)

/-- C5: the first-ever observation of a name yields all-zero rates and
records the observation; every later observation of the same name (at a
strictly later nonzero-history time) yields each rate equal to the
wraparound-corrected counter delta divided by the elapsed seconds, and
records the new observation. -/
theorem updateAndCalculateRates_spec :
    (∀ (states : List (String × interfaceState)) (now : ℚ) (name : String)
        (rx tx rxp txp : Nat),
      states.lookup name = none →
      (updateAndCalculateRates states now name rx tx rxp txp).1 = (0, 0, 0, 0) ∧
      ((updateAndCalculateRates states now name rx tx rxp txp).2).lookup name
        = some ⟨rx, tx, rxp, txp, now⟩) ∧
    (∀ (states : List (String × interfaceState)) (prev : interfaceState)
        (now : ℚ) (name : String) (rx tx rxp txp : Nat),
      states.lookup name = some prev →
      prev.timestamp ≠ 0 →
      prev.timestamp < now →
      (updateAndCalculateRates states now name rx tx rxp txp).1 =
        ((Handle64BitCounterWrap rx prev.rxBytes : ℚ) / (now - prev.timestamp),
         (Handle64BitCounterWrap tx prev.txBytes : ℚ) / (now - prev.timestamp),
         (Handle64BitCounterWrap rxp prev.rxPackets : ℚ) / (now - prev.timestamp),
         (Handle64BitCounterWrap txp prev.txPackets : ℚ) / (now - prev.timestamp)) ∧
      ((updateAndCalculateRates states now name rx tx rxp txp).2).lookup name
        = some ⟨rx, tx, rxp, txp, now⟩) := by
  constructor
  · intro states now name rx tx rxp txp hnone
    refine ⟨?_, ?_⟩
    · simp [updateAndCalculateRates, hnone]
    · simp [updateAndCalculateRates]
  · intro states prev now name rx tx rxp txp hsome hts hlt
    have helapsed : (0 : ℚ) < now - prev.timestamp := by linarith
    refine ⟨?_, ?_⟩
    · simp [updateAndCalculateRates, hsome, hts, helapsed]
    · simp [updateAndCalculateRates]

/-- C5 witness: a fresh name yields zero rates; one second later a
1000-unit increase on every counter yields a rate of 1000 units per
second on every component. -/
theorem updateAndCalculateRates_spec_witness :
    (updateAndCalculateRates [] 1 "eth0" 0 0 0 0).1 = (0, 0, 0, 0) ∧
    (updateAndCalculateRates [("eth0", ⟨0, 0, 0, 0, 1⟩)] 2 "eth0"
        1000 1000 1000 1000).1
      = ((Handle64BitCounterWrap 1000 0 : ℚ) / (2 - 1),
         (Handle64BitCounterWrap 1000 0 : ℚ) / (2 - 1),
         (Handle64BitCounterWrap 1000 0 : ℚ) / (2 - 1),
         (Handle64BitCounterWrap 1000 0 : ℚ) / (2 - 1)) :=
  ⟨(updateAndCalculateRates_spec.1 [] 1 "eth0" 0 0 0 0 rfl).1,
   (updateAndCalculateRates_spec.2 [("eth0", ⟨0, 0, 0, 0, 1⟩)] ⟨0, 0, 0, 0, 1⟩
      2 "eth0" 1000 1000 1000 1000 rfl (by norm_num) (by norm_num)).1⟩

/-! ### Command executor: reply classification
From `Run` / `readAllReplies` in the api client. A reply is a type tag,
an attribute map (association list) and an optional tag. -/

structure Reply where
  typ : String
  data : List (String × String)
  tag : String
deriving DecidableEq, Repr

def Reply.IsDone (r : Reply) : Bool := r.typ == "!done"

def Reply.IsTrap (r : Reply) : Bool := r.typ == "!trap"

def Reply.IsFatal (r : Reply) : Bool := r.typ == "!fatal"

def Reply.IsData (r : Reply) : Bool := r.typ == "!re"

def Reply.GetMessage (r : Reply) : String :=
  match r.data.lookup "message" with
  | some m => m
  | none => ""

/-- A reply is terminal when it is `!done` or `!fatal`; `readAllReplies`
stops after the first terminal reply. -/
def isTerminal (r : Reply) : Bool := r.IsDone || r.IsFatal

inductive RunError where
  | trapError (r : Reply)
  | fatalError (r : Reply)
deriving DecidableEq, Repr

/-- The reply-mapping loop of `Run`: walks the replies in order, failing on
the first trap (TrapError) or fatal (FatalError, which also force-closes the
connection — the boolean result), and collecting data replies as rows. -/
def runLoop : List Reply → List (List (String × String)) →
    Except RunError (List (List (String × String))) × Bool
  | [], acc => (Except.ok acc, false)
  | r :: rest, acc =>
    if r.IsTrap then (Except.error (RunError.trapError r), false)
    else if r.IsFatal then (Except.error (RunError.fatalError r), true)
    else if r.IsData then runLoop rest (acc ++ [r.data])
    else runLoop rest acc

/-- `Run` applied to an error-free `Execute` reply sequence. -/
def Run (replies : List Reply) :
    Except RunError (List (List (String × String))) × Bool :=
  runLoop replies []

theorem runLoop_step (f : Reply) (rest : List Reply) (acc : List (List (String × String)))
    (h1 : f.IsTrap = false) (h2 : f.IsFatal = false) :
    runLoop (f :: rest) acc
      = runLoop rest (if f.IsData then acc ++ [f.data] else acc) := by
  by_cases hd : f.IsData = true
  · simp [runLoop, h1, h2, hd]
  · have hd2 : f.IsData = false := by simpa using hd
    simp [runLoop, h1, h2, hd2]

theorem runLoop_clean (rs : List Reply)
    (h : ∀ r ∈ rs, r.IsTrap = false ∧ r.IsFatal = false) :
    ∀ acc, runLoop rs acc =
      (Except.ok (acc ++ (rs.filter (fun r => r.IsData)).map Reply.data), false) := by
  induction rs with
  | nil =>
    intro acc
    simp [runLoop]
  | cons r rest ih =>
    intro acc
    have hr := h r (List.mem_cons_self r rest)
    have hrest : ∀ x ∈ rest, x.IsTrap = false ∧ x.IsFatal = false :=
      fun x hx => h x (List.mem_cons_of_mem r hx)
    rw [runLoop_step r rest acc hr.1 hr.2]
    by_cases hd : r.IsData = true
    · simp [hd, ih hrest]
    · have hd2 : r.IsData = false := by simpa using hd
      simp [hd2, ih hrest]

theorem runLoop_trap_aux (front : List Reply) (last : Reply)
    (hfront : ∀ r ∈ front, isTerminal r = false)
    (hex : ∃ r ∈ front, r.IsTrap = true) :
    ∃ trap, trap.IsTrap = true ∧
      ∀ acc, runLoop (front ++ [last]) acc
        = (Except.error (RunError.trapError trap), false) := by
  induction front with
  | nil =>
    obtain ⟨r, hr, _⟩ := hex
    exact absurd hr (by simp)
  | cons f fr ih =>
    by_cases hf : f.IsTrap = true
    · refine ⟨f, hf, fun acc => ?_⟩
      simp [runLoop, hf]
    · have hf2 : f.IsTrap = false := by simpa using hf
      have hfatal : f.IsFatal = false := by
        have := hfront f (List.mem_cons_self f fr)
        simp [isTerminal] at this
        exact this.2
      have hfr : ∀ r ∈ fr, isTerminal r = false :=
        fun r hr => hfront r (List.mem_cons_of_mem f hr)
      have hex2 : ∃ r ∈ fr, r.IsTrap = true := by
        obtain ⟨r, hr, hrt⟩ := hex
        rcases List.mem_cons.mp hr with h1 | h1
        · subst h1; exact absurd hrt (by simp [hf2])
        · exact ⟨r, h1, hrt⟩
      obtain ⟨trap, htrap, hall⟩ := ih hfr hex2
      refine ⟨trap, htrap, fun acc => ?_⟩
      rw [List.cons_append, runLoop_step f (fr ++ [last]) acc hf2 hfatal]
      exact hall _

theorem runLoop_fatal_aux (front : List Reply) (last : Reply)
    (hfront : ∀ r ∈ front, r.IsTrap = false ∧ r.IsFatal = false)
    (hnt : last.IsTrap = false) (hf : last.IsFatal = true) :
    ∀ acc, runLoop (front ++ [last]) acc
      = (Except.error (RunError.fatalError last), true) := by
  induction front with
  | nil =>
    intro acc
    simp [runLoop, hnt, hf]
  | cons f fr ih =>
    intro acc
    have hfp := hfront f (List.mem_cons_self f fr)
    have hfr : ∀ r ∈ fr, r.IsTrap = false ∧ r.IsFatal = false :=
      fun r hr => hfront r (List.mem_cons_of_mem f hr)
    rw [List.cons_append, runLoop_step f (fr ++ [last]) acc hfp.1 hfp.2]
    exact ih hfr _

theorem isTrap_false_of_terminal (r : Reply) (h : isTerminal r = true) :
    r.IsTrap = false := by
  simp only [isTerminal, Reply.IsDone, Reply.IsFatal, Bool.or_eq_true, beq_iff_eq] at h
  rcases h with h | h <;> simp [Reply.IsTrap, h]

/-- C6: over an error-free Execute reply sequence (every reply before the
last is non-terminal, the last is terminal): a trap anywhere fails the call
with a TrapError without closing the connection; with no trap, a fatal
(necessarily the last reply) fails the call with a FatalError and
force-closes the connection; with neither, Run returns exactly the data
replies' attribute maps as rows, in emission order, without closing. -/
theorem run_spec (front : List Reply) (last : Reply)
    (hfront : ∀ r ∈ front, isTerminal r = false)
    (hlast : isTerminal last = true) :
    ((∃ r ∈ front ++ [last], r.IsTrap = true) →
      ∃ trap, trap.IsTrap = true ∧
        Run (front ++ [last]) = (Except.error (RunError.trapError trap), false)) ∧
    ((∀ r ∈ front ++ [last], r.IsTrap = false) → last.IsFatal = true →
      Run (front ++ [last]) = (Except.error (RunError.fatalError last), true)) ∧
    ((∀ r ∈ front ++ [last], r.IsTrap = false) → last.IsFatal = false →
      Run (front ++ [last]) =
        (Except.ok (((front ++ [last]).filter (fun r => r.IsData)).map Reply.data),
         false)) := by
  refine ⟨?_, ?_, ?_⟩
  · intro hex
    have hexf : ∃ r ∈ front, r.IsTrap = true := by
      obtain ⟨r, hr, hrt⟩ := hex
      rcases List.mem_append.mp hr with h1 | h1
      · exact ⟨r, h1, hrt⟩
      · simp at h1
        subst h1
        exact absurd hrt (by simp [isTrap_false_of_terminal r hlast])
    obtain ⟨trap, htrap, hall⟩ := runLoop_trap_aux front last hfront hexf
    exact ⟨trap, htrap, hall []⟩
  · intro hnotrap hfatal
    have hfr : ∀ r ∈ front, r.IsTrap = false ∧ r.IsFatal = false := by
      intro r hr
      refine ⟨hnotrap r (by simp [hr]), ?_⟩
      have := hfront r hr
      simp [isTerminal] at this
      exact this.2
    exact runLoop_fatal_aux front last hfr (hnotrap last (by simp)) hfatal []
  · intro hnotrap hfatal
    have hclean : ∀ r ∈ front ++ [last], r.IsTrap = false ∧ r.IsFatal = false := by
      intro r hr
      rcases List.mem_append.mp hr with hr2 | hr2
      · refine ⟨hnotrap r hr, ?_⟩
        have := hfront r hr2
        simp [isTerminal] at this
        exact this.2
      · simp at hr2
        subst hr2
        exact ⟨hnotrap r hr, hfatal⟩
    simpa [Run] using runLoop_clean (front ++ [last]) hclean []

/-- C6 witness: two data replies followed by done give exactly the two rows
in order; a trap followed by done fails with a TrapError; a lone fatal fails
with a FatalError and closes. -/
theorem run_spec_witness :
    Run [⟨"!re", [("a", "1")], ""⟩, ⟨"!re", [("b", "2")], ""⟩, ⟨"!done", [], ""⟩]
      = (Except.ok [[("a", "1")], [("b", "2")]], false) ∧
    (∃ trap, trap.IsTrap = true ∧
      Run [⟨"!trap", [("message", "bad")], ""⟩, ⟨"!done", [], ""⟩]
        = (Except.error (RunError.trapError trap), false)) ∧
    Run [⟨"!fatal", [], ""⟩]
      = (Except.error (RunError.fatalError ⟨"!fatal", [], ""⟩), true) := by
  refine ⟨?_, ?_, ?_⟩
  · have h := (run_spec [⟨"!re", [("a", "1")], ""⟩, ⟨"!re", [("b", "2")], ""⟩]
        ⟨"!done", [], ""⟩ (by decide) (by decide)).2.2 (by decide) (by decide)
    simpa using h
  · exact (run_spec [⟨"!trap", [("message", "bad")], ""⟩] ⟨"!done", [], ""⟩
      (by decide) (by decide)).1 ⟨⟨"!trap", [("message", "bad")], ""⟩, by decide, by decide⟩
  · exact (run_spec [] ⟨"!fatal", [], ""⟩ (by decide) (by decide)).2.1
      (by decide) (by decide)


/-! ### NAT connection collection: sampling, cap and scan cutoff
From `collectNAT` in the nat collector. A raw connection row is an
attribute map; `rand.Float64()` draws are supplied as an oracle indexed by
the row position; row parsing (`parseNATConnection`) does not affect how
many rows are kept, so kept rows are recorded raw. -/

abbrev Row := List (String × String)

structure NATConfig where
  SamplingEnabled : Bool
  SampleRate : ℚ
  MaxConnections : Int

/-- The row loop of `collectNAT`: `i` is the range index, `acc` the kept
rows. Returns the kept rows and the number of raw rows visited. Mirrors the
Go loop: a sampled-out row `continue`s (skipping both the cap check and the
100000 cutoff check); the cap check runs before the row is kept; the cutoff
check runs after, breaking once `i > 100000`. -/
def natLoop (cfg : NATConfig) (maxConns : Nat) (draws : Nat → ℚ) :
    Nat → List Row → List Row → List Row × Nat
  | i, acc, [] => (acc, i)
  | i, acc, conn :: rest =>
    if cfg.SamplingEnabled = true ∧ cfg.SampleRate < 1 ∧ cfg.SampleRate < draws i then
      natLoop cfg maxConns draws (i + 1) acc rest
    else if maxConns ≤ acc.length then
      (acc, i + 1)
    else
      let acc2 := acc ++ [conn]
      if 100000 < i then (acc2, i + 1)
      else natLoop cfg maxConns draws (i + 1) acc2 rest

/-- `collectNAT`'s bounding behaviour: effective cap defaults to 10000 when
the configured `MaxConnections` is zero or negative. -/
def collectNATRows (cfg : NATConfig) (draws : Nat → ℚ) (connections : List Row) :
    List Row × Nat :=
  let maxConns : Nat := if cfg.MaxConnections ≤ 0 then 10000 else cfg.MaxConnections.toNat
  natLoop cfg maxConns draws 0 [] connections

theorem natLoop_all_skipped (cfg : NATConfig) (maxConns : Nat) (draws : Nat → ℚ)
    (hen : cfg.SamplingEnabled = true) (hrate : cfg.SampleRate < 1)
    (hdraws : ∀ j, cfg.SampleRate < draws j) :
    ∀ (rows : List Row) (i : Nat) (acc : List Row),
      natLoop cfg maxConns draws i acc rows = (acc, i + rows.length) := by
  intro rows
  induction rows with
  | nil =>
    intro i acc
    simp [natLoop]
  | cons r rest ih =>
    intro i acc
    rw [natLoop, if_pos ⟨hen, hrate, hdraws i⟩, ih]
    simp
    omega

theorem natLoop_kept_le (cfg : NATConfig) (maxConns : Nat) (draws : Nat → ℚ) :
    ∀ (rows : List Row) (i : Nat) (acc : List Row), acc.length ≤ maxConns →
      (natLoop cfg maxConns draws i acc rows).1.length ≤ maxConns := by
  intro rows
  induction rows with
  | nil =>
    intro i acc hacc
    simpa [natLoop] using hacc
  | cons r rest ih =>
    intro i acc hacc
    rw [natLoop]
    by_cases hskip : cfg.SamplingEnabled = true ∧ cfg.SampleRate < 1 ∧
        cfg.SampleRate < draws i
    · rw [if_pos hskip]
      exact ih _ _ hacc
    · rw [if_neg hskip]
      by_cases hcap : maxConns ≤ acc.length
      · rw [if_pos hcap]
        simpa using hacc
      · rw [if_neg hcap]
        have hlt : acc.length < maxConns := by omega
        by_cases hcut : 100000 < i
        · rw [if_pos hcut]
          simp
          omega
        · rw [if_neg hcut]
          exact ih _ _ (by simp; omega)

theorem natLoop_visited_le_len (cfg : NATConfig) (maxConns : Nat) (draws : Nat → ℚ) :
    ∀ (rows : List Row) (i : Nat) (acc : List Row),
      (natLoop cfg maxConns draws i acc rows).2 ≤ i + rows.length := by
  intro rows
  induction rows with
  | nil =>
    intro i acc
    simp [natLoop]
  | cons r rest ih =>
    intro i acc
    rw [natLoop]
    by_cases hskip : cfg.SamplingEnabled = true ∧ cfg.SampleRate < 1 ∧
        cfg.SampleRate < draws i
    · rw [if_pos hskip]
      have := ih (i + 1) acc
      simp only [List.length_cons]
      omega
    · rw [if_neg hskip]
      by_cases hcap : maxConns ≤ acc.length
      · rw [if_pos hcap]
        simp
      · rw [if_neg hcap]
        by_cases hcut : 100000 < i
        · rw [if_pos hcut]
          simp
        · rw [if_neg hcut]
          have := ih (i + 1) (acc ++ [r])
          simp only [List.length_cons]
          omega

theorem natLoop_visited_cutoff (cfg : NATConfig) (maxConns : Nat) (draws : Nat → ℚ)
    (hdis : cfg.SamplingEnabled = false) :
    ∀ (rows : List Row) (i : Nat) (acc : List Row),
      (natLoop cfg maxConns draws i acc rows).2 ≤ max (i + 1) 100002 := by
  intro rows
  induction rows with
  | nil =>
    intro i acc
    simp [natLoop]
  | cons r rest ih =>
    intro i acc
    rw [natLoop]
    rw [if_neg (by simp [hdis])]
    by_cases hcap : maxConns ≤ acc.length
    · rw [if_pos hcap]
      simp
    · rw [if_neg hcap]
      by_cases hcut : 100000 < i
      · rw [if_pos hcut]
        simp
      · rw [if_neg hcut]
        have := ih (i + 1) (acc ++ [r])
        omega

/-- C8 counterexample: with sampling enabled at rate 1/2 and every draw
9/10 (so every row is sampled out), the scan over 200000 raw rows visits
all 200000 of them — it does not stop at the 100000-row cutoff, because a
sampled-out row skips the cutoff check entirely. The hard cap still holds
(no rows are kept at all). -/
theorem collectNAT_cutoff_counterexample :
    (collectNATRows ⟨true, 1 / 2, 10000⟩ (fun _ => 9 / 10)
        (List.replicate 200000 ([] : Row))).2 = 200000 ∧
    (collectNATRows ⟨true, 1 / 2, 10000⟩ (fun _ => 9 / 10)
        (List.replicate 200000 ([] : Row))).1 = [] := by
  have hcfg : collectNATRows ⟨true, 1 / 2, 10000⟩ (fun _ => 9 / 10)
      (List.replicate 200000 ([] : Row))
      = natLoop ⟨true, 1 / 2, 10000⟩ 10000 (fun _ => 9 / 10) 0 []
          (List.replicate 200000 ([] : Row)) := rfl
  have h := natLoop_all_skipped ⟨true, 1 / 2, 10000⟩ 10000 (fun _ => 9 / 10)
    rfl (by norm_num) (fun _ => by norm_num)
    (List.replicate 200000 ([] : Row)) 0 []
  rw [hcfg, h]
  refine ⟨?_, rfl⟩
  rw [List.length_replicate]

/-- C8 (amended): the number of kept rows never exceeds the effective
maximum (the configured MaxConnections, defaulting to 10000 when it is zero
or negative), for every sampling configuration and every draw sequence; the
100000-row cutoff bounds the scan only when sampling does not discard rows —
with sampling disabled the scan visits at most min(len, 100002) raw rows,
while sampled-out rows bypass the cutoff check, so with sampling enabled the
scan may visit every raw row. -/
theorem collectNAT_bounds_amended (cfg : NATConfig) (draws : Nat → ℚ)
    (connections : List Row) :
    (collectNATRows cfg draws connections).1.length ≤
      (if cfg.MaxConnections ≤ 0 then 10000 else cfg.MaxConnections.toNat) ∧
    (cfg.SamplingEnabled = false →
      (collectNATRows cfg draws connections).2 ≤ min connections.length 100002) := by
  constructor
  · exact natLoop_kept_le cfg _ draws connections 0 [] (by simp)
  · intro hdis
    have h1 := natLoop_visited_le_len cfg
      (if cfg.MaxConnections ≤ 0 then 10000 else cfg.MaxConnections.toNat)
      draws connections 0 []
    have h2 := natLoop_visited_cutoff cfg
      (if cfg.MaxConnections ≤ 0 then 10000 else cfg.MaxConnections.toNat)
      draws hdis connections 0 []
    rw [collectNATRows]
    omega

/-- C8 witness: the amended bound applied to a concrete run with sampling
disabled: three rows, cap 2 — two rows kept, three rows visited. -/
theorem collectNAT_bounds_amended_witness :
    (collectNATRows ⟨false, 1, 2⟩ (fun _ => 0) [[], [], []]).1.length ≤
      (if (2 : Int) ≤ 0 then 10000 else (2 : Int).toNat) ∧
    (collectNATRows ⟨false, 1, 2⟩ (fun _ => 0) [[], [], []]).2 ≤ min 3 100002 := by
  have h := collectNAT_bounds_amended ⟨false, 1, 2⟩ (fun _ => 0) [[], [], []]
  exact ⟨h.1, by simpa using h.2 rfl⟩



/-! ### Utility parsers
From `ParseUptime` / `ParseSpeed` / `ParseMemory` / `ParseInt64` in pppoe
utils. The Go regular expressions are modelled as direct scanners with the
same match semantics: the uptime regex `(\d+)([wdhms])` finds every maximal
digit run immediately followed by a unit letter; the speed and memory
regexes anchor a decimal number, optional spaces and an optional unit
suffix to the whole (lowered, trimmed) string. float64 values are modelled
as exact rationals, and Go's `int64(...)` float conversion as truncation
toward zero. -/

def isSpaceChar (c : Char) : Bool :=
  c == ' ' || c == '\t' || c == '\n' || c == '\r'

def trimSpace (s : List Char) : List Char :=
  ((s.dropWhile isSpaceChar).reverse.dropWhile isSpaceChar).reverse

def toLowerL (s : List Char) : List Char := s.map Char.toLower

def parseDigits (ds : List Char) : Nat :=
  ds.foldl (fun acc c => acc * 10 + (c.toNat - '0'.toNat)) 0

def isUnitChar (c : Char) : Bool :=
  c == 'w' || c == 'd' || c == 'h' || c == 'm' || c == 's'

def unitSeconds (u : Char) : Nat :=
  if u = 'w' then 604800
  else if u = 'd' then 86400
  else if u = 'h' then 3600
  else if u = 'm' then 60
  else if u = 's' then 1
  else 0

/-- Scanner equivalent of `FindAllStringSubmatch` for `(\d+)([wdhms])`:
`ds` accumulates the current digit run; a unit letter right after a
nonempty run produces a match; any other character resets the run. -/
def uptimeScan : List Char → List Char → List (List Char × Char)
  | _, [] => []
  | ds, c :: rest =>
    if c.isDigit then uptimeScan (ds ++ [c]) rest
    else if isUnitChar c && !ds.isEmpty then (ds, c) :: uptimeScan [] rest
    else uptimeScan [] rest

/-- `ParseUptime`: sums value times unit seconds over all matches; a digit
run overflowing int64 fails `strconv.ParseInt` and is skipped. -/
def ParseUptime (uptime : String) : Nat :=
  if uptime = "" then 0
  else
    (uptimeScan [] (trimSpace uptime.toList)).foldl
      (fun total m =>
        if parseDigits m.1 ≤ 9223372036854775807 then
          total + parseDigits m.1 * unitSeconds m.2
        else total) 0

/-- The anchored decimal-number head `(\d+(?:\.\d+)?)` of the speed and
memory regexes: returns the value as an exact decimal `(num, scale)` pair
meaning `num / 10^scale`, and the unconsumed remainder (on a dot not
followed by digits, the optional fraction group is not taken and the dot
remains unconsumed, so the anchored regex as a whole will fail). -/
def parseNumber (s : List Char) : Option ((Nat × Nat) × List Char) :=
  let intDigits := s.takeWhile Char.isDigit
  let rest := s.dropWhile Char.isDigit
  if intDigits.isEmpty then none
  else
    match rest with
    | '.' :: rest2 =>
      let fracDigits := rest2.takeWhile Char.isDigit
      let rest3 := rest2.dropWhile Char.isDigit
      if fracDigits.isEmpty then
        some ((parseDigits intDigits, 0), rest)
      else
        some ((parseDigits intDigits * 10 ^ fracDigits.length
                + parseDigits fracDigits, fracDigits.length), rest3)
    | _ => some ((parseDigits intDigits, 0), rest)

/-- Go `int64(v * mulN / divN)` where `v` is the nonnegative decimal value
`num / 10^scale`: float64 conversion to int64 truncates toward zero, which
on these nonnegative exact values is truncated natural division. -/
def decTrunc (num scale mulN divN : Nat) : Int :=
  Int.ofNat (num * mulN / (10 ^ scale * divN))

/-- `ParseSpeed`: RouterOS speed string to Mbps. -/
def ParseSpeed (speed : String) : Int :=
  if speed = "" then 0
  else
    let sl := trimSpace (toLowerL speed.toList)
    if sl = "auto".toList then 0
    else if sl = "unknown".toList then 0
    else
      match parseNumber sl with
      | none => 0
      | some ((num, scale), rest) =>
        let rest2 := rest.dropWhile isSpaceChar
        if rest2 = [] then decTrunc num scale 1 1
        else if rest2 = "gbps".toList then decTrunc num scale 1000 1
        else if rest2 = "mbps".toList then decTrunc num scale 1 1
        else if rest2 = "kbps".toList then decTrunc num scale 1 1000
        else if rest2 = "bps".toList then decTrunc num scale 1 1000000
        else 0

/-- `ParseInt64` on a char list: trims, parses an optional sign and a
nonempty digit run, returns 0 on any malformed input or int64 overflow. -/
def ParseInt64L (s : List Char) : Int :=
  let t := trimSpace s
  if t = [] then 0
  else
    let signDigits : Int × List Char :=
      match t with
      | '+' :: rest => (1, rest)
      | '-' :: rest => (-1, rest)
      | _ => (1, t)
    if signDigits.2 ≠ [] ∧ signDigits.2.all Char.isDigit then
      let v : Int := signDigits.1 * (parseDigits signDigits.2 : Int)
      if -9223372036854775808 ≤ v ∧ v ≤ 9223372036854775807 then v else 0
    else 0

/-- `ParseMemory`: memory size string to bytes; when the anchored regex
fails the Go code falls back to `ParseInt64` on the lowered trimmed
string. -/
def ParseMemory (mem : String) : Int :=
  if mem = "" then 0
  else
    let ml := trimSpace (toLowerL mem.toList)
    match parseNumber ml with
    | none => ParseInt64L ml
    | some ((num, scale), rest) =>
      let rest2 := rest.dropWhile isSpaceChar
      if rest2 = [] then decTrunc num scale 1 1
      else if rest2 = "gib".toList then decTrunc num scale 1073741824 1
      else if rest2 = "gb".toList then decTrunc num scale 1073741824 1
      else if rest2 = "mib".toList then decTrunc num scale 1048576 1
      else if rest2 = "mb".toList then decTrunc num scale 1048576 1
      else if rest2 = "kib".toList then decTrunc num scale 1024 1
      else if rest2 = "kb".toList then decTrunc num scale 1024 1
      else if rest2 = "b".toList then decTrunc num scale 1 1
      else ParseInt64L ml

theorem mem_trimSpace (c : Char) (l : List Char) (h : c ∈ trimSpace l) : c ∈ l := by
  unfold trimSpace at h
  rw [List.mem_reverse] at h
  have h1 : c ∈ (l.dropWhile isSpaceChar).reverse :=
    List.Sublist.mem h (List.dropWhile_sublist _)
  rw [List.mem_reverse] at h1
  exact List.Sublist.mem h1 (List.dropWhile_sublist _)

theorem uptimeScan_no_digit (s : List Char) (h : ∀ c ∈ s, c.isDigit = false) :
    uptimeScan [] s = [] := by
  induction s with
  | nil => rfl
  | cons c rest ih =>
    have hc := h c (List.mem_cons_self c rest)
    have hrest := fun x hx => h x (List.mem_cons_of_mem c hx)
    rw [uptimeScan, if_neg (by simp [hc])]
    simp only [List.isEmpty_nil, Bool.not_true, Bool.and_false, Bool.false_eq_true,
      if_false]
    exact ih hrest

/-- C9: the utility parsers are total by construction (they return a value,
never an error); a string containing no digit parses to uptime 0; and the
reference equalities hold, including order-independence and repetition of
the w/d/h/m/s components, case-insensitive speed units with auto/unknown
mapping to 0, and binary memory units. -/
theorem parsers_spec :
    (∀ s : String, (∀ c ∈ s.toList, c.isDigit = false) → ParseUptime s = 0) ∧
    ParseUptime "1w2d3h4m5s" = 788645 ∧
    ParseUptime "5s4m3h2d1w" = 788645 ∧
    ParseUptime "1h1h" = 7200 ∧
    ParseSpeed "10Gbps" = 10000 ∧
    ParseSpeed "auto" = 0 ∧
    ParseSpeed "unknown" = 0 ∧
    ParseSpeed "junk" = 0 ∧
    ParseMemory "1GiB" = 1073741824 ∧
    ParseMemory "junk" = 0 := by
  refine ⟨?_, by decide, by decide, by decide, by decide, by decide, by decide,
    by decide, by decide, by decide⟩
  intro s hs
  by_cases hempty : s = ""
  · simp [ParseUptime, hempty]
  · rw [ParseUptime, if_neg hempty,
      uptimeScan_no_digit _ (fun c hc => hs c (mem_trimSpace c _ hc))]
    rfl

/-- C9 witness: the no-digit clause applied to the concrete string "abc". -/
theorem parsers_spec_witness : ParseUptime "abc" = 0 :=
  parsers_spec.1 "abc" (by decide)



/-! ### Connection and authentication
From `authenticate` / `tryNewLogin` / `tryLegacyLogin` /
`handleLegacyChallenge` / `Connect` in the api client, and the error
taxonomy from the api errors file. A session is modelled as the scripted
stream of replies the device will give, consumed in order, plus a trace of
the login exchanges written; the MD5 response value does not influence
control flow and is not modelled. Dial outcomes per attempt are an oracle;
context cancellation never fires. -/

inductive ErrType where
  | connection
  | auth
  | trap
  | fatal
  | timeout
  | circuitOpen
  | protocol
deriving DecidableEq, Repr

structure APIError where
  errType : ErrType
  message : String
  temporary : Bool
deriving DecidableEq, Repr

def NewConnectionError (msg : String) : APIError :=
  ⟨ErrType.connection, msg, true⟩

def NewAuthError (msg : String) : APIError :=
  ⟨ErrType.auth, msg, false⟩

def NewProtocolError (msg : String) : APIError :=
  ⟨ErrType.protocol, msg, false⟩

def ErrCircuitOpen : APIError :=
  ⟨ErrType.circuitOpen, "circuit breaker is open", true⟩

def IsAuthError (e : APIError) : Bool := e.errType == ErrType.auth

def hexVal (c : Char) : Option Nat :=
  if '0' ≤ c ∧ c ≤ '9' then some (c.toNat - '0'.toNat)
  else if 'a' ≤ c ∧ c ≤ 'f' then some (c.toNat - 'a'.toNat + 10)
  else if 'A' ≤ c ∧ c ≤ 'F' then some (c.toNat - 'A'.toNat + 10)
  else none

/-- `hex.DecodeString`: fails on odd length or non-hex characters. -/
def hexDecode : List Char → Option (List Nat)
  | [] => some []
  | [_] => none
  | c1 :: c2 :: rest =>
    match hexVal c1, hexVal c2, hexDecode rest with
    | some hi, some lo, some bs => some ((hi * 16 + lo) :: bs)
    | _, _, _ => none

inductive LoginExchange where
  | newLogin
  | bareLogin
  | challengeResponse
deriving DecidableEq, Repr

/-- A session: the replies the device will still give, and the login
exchanges performed so far. -/
structure Conn where
  replies : List Reply
  sent : List LoginExchange
deriving DecidableEq, Repr

/-- `handleLegacyChallenge`: decode the hex challenge (a format error is a
ProtocolError), send the MD5 response, classify the reply. -/
def handleLegacyChallenge (challenge : String) (c : Conn) :
    Except APIError Unit × Conn :=
  match hexDecode challenge.toList with
  | none => (Except.error (NewProtocolError "invalid challenge format"), c)
  | some _ =>
    let c1 : Conn := { c with sent := c.sent ++ [LoginExchange.challengeResponse] }
    match c1.replies with
    | [] => (Except.error (NewConnectionError "connection closed"), c1)
    | reply :: rest =>
      let c2 : Conn := { c1 with replies := rest }
      if reply.IsTrap then (Except.error (NewAuthError reply.GetMessage), c2)
      else if !reply.IsDone then
        (Except.error (NewProtocolError "unexpected login response"), c2)
      else (Except.ok (), c2)

/-- `tryNewLogin`: send `/login` with name and password, classify the
reply; a non-done reply carrying `ret` goes to the legacy challenge. -/
def tryNewLogin (c : Conn) : Except APIError Unit × Conn :=
  let c1 : Conn := { c with sent := c.sent ++ [LoginExchange.newLogin] }
  match c1.replies with
  | [] => (Except.error (NewConnectionError "connection closed"), c1)
  | reply :: rest =>
    let c2 : Conn := { c1 with replies := rest }
    if reply.IsTrap then (Except.error (NewAuthError reply.GetMessage), c2)
    else if !reply.IsDone then
      match reply.data.lookup "ret" with
      | some ret => handleLegacyChallenge ret c2
      | none => (Except.error (NewProtocolError "unexpected login response"), c2)
    else (Except.ok (), c2)

/-- `tryLegacyLogin`: send bare `/login`, read the challenge, answer it. -/
def tryLegacyLogin (c : Conn) : Except APIError Unit × Conn :=
  let c1 : Conn := { c with sent := c.sent ++ [LoginExchange.bareLogin] }
  match c1.replies with
  | [] => (Except.error (NewConnectionError "connection closed"), c1)
  | reply :: rest =>
    let c2 : Conn := { c1 with replies := rest }
    if reply.IsTrap then (Except.error (NewAuthError reply.GetMessage), c2)
    else if !reply.IsDone then
      (Except.error (NewProtocolError "unexpected login response"), c2)
    else
      match reply.data.lookup "ret" with
      | none => (Except.error (NewProtocolError "no challenge received"), c2)
      | some challenge => handleLegacyChallenge challenge c2

/-- `authenticate`: try the modern login; on ANY error — a trap included —
fall back to the legacy challenge-response login on the same session. -/
def authenticate (c : Conn) : Except APIError Unit × Conn :=
  match tryNewLogin c with
  | (Except.ok _, c1) => (Except.ok (), c1)
  | (Except.error _, c1) => tryLegacyLogin c1

/-- The retry loop of `Connect`: `attempt` counts executed iterations,
`budget` the remaining ones (`RetryAttempts + 1` initially); returns the
result, the number of iterations executed, and the final attempt's login
trace. -/
def connectLoop (dial : Nat → Option Conn) :
    Nat → Nat → Option APIError → Except APIError Unit × Nat × List LoginExchange
  | attempt, 0, lastErr =>
    (Except.error (lastErr.getD (NewConnectionError "failed to connect")), attempt, [])
  | attempt, budget + 1, _lastErr =>
    match dial attempt with
    | none =>
      connectLoop dial (attempt + 1) budget (some (NewConnectionError "failed to connect"))
    | some conn =>
      match authenticate conn with
      | (Except.ok _, c2) => (Except.ok (), attempt + 1, c2.sent)
      | (Except.error e, c2) =>
        if IsAuthError e then (Except.error e, attempt + 1, c2.sent)
        else connectLoop dial (attempt + 1) budget (some e)

/-- `Connect`: gate on the circuit breaker, run the retry loop, record
exactly one success or failure outcome. -/
def Connect (retryAttempts : Nat) (dial : Nat → Option Conn)
    (cb : CircuitBreaker) (now : Nat) :
    Except APIError Unit × Nat × List LoginExchange × CircuitBreaker :=
  match canAttempt now cb with
  | (false, cb1) => (Except.error ErrCircuitOpen, 0, [], cb1)
  | (true, cb1) =>
    match connectLoop dial 0 (retryAttempts + 1) none with
    | (Except.ok _, n, tr) => (Except.ok (), n, tr, recordSuccess cb1)
    | (Except.error e, n, tr) => (Except.error e, n, tr, recordFailure now cb1)

theorem handleLegacyChallenge_sent (ch : String) (c : Conn) (x : LoginExchange)
    (hx : x ∈ c.sent) : x ∈ (handleLegacyChallenge ch c).2.sent := by
  unfold handleLegacyChallenge
  rcases hexDecode ch.toList with _ | bs
  · exact hx
  · rcases c.replies with _ | ⟨reply, rest⟩
    · simpa using Or.inl hx
    · by_cases ht : reply.IsTrap = true
      · simp only [ht, if_true]
        simpa using Or.inl hx
      · have ht2 : reply.IsTrap = false := by simpa using ht
        by_cases hd : reply.IsDone = true
        · simp only [ht2, hd, Bool.false_eq_true, if_false, Bool.not_true,
            Bool.false_eq_true, if_false]
          simpa using Or.inl hx
        · have hd2 : reply.IsDone = false := by simpa using hd
          simp only [ht2, hd2, Bool.false_eq_true, if_false, Bool.not_false, if_true]
          simpa using Or.inl hx

theorem tryLegacyLogin_sent_bare (c : Conn) :
    LoginExchange.bareLogin ∈ (tryLegacyLogin c).2.sent := by
  unfold tryLegacyLogin
  rcases c.replies with _ | ⟨reply, rest⟩
  · simp
  · by_cases ht : reply.IsTrap = true
    · simp [ht]
    · have ht2 : reply.IsTrap = false := by simpa using ht
      by_cases hd : reply.IsDone = true
      · simp only [ht2, hd, Bool.false_eq_true, if_false, Bool.not_true,
          Bool.false_eq_true, if_false]
        rcases reply.data.lookup "ret" with _ | challenge
        · simp
        · exact handleLegacyChallenge_sent _ _ _ (by simp)
      · have hd2 : reply.IsDone = false := by simpa using hd
        simp [ht2, hd2]

theorem canAttempt_failures (now : Nat) (cb : CircuitBreaker) :
    (canAttempt now cb).2.failures = cb.failures := by
  simp only [canAttempt]
  split
  · rfl
  · split
    · rfl
    · rfl
  · rfl

/-- C1 counterexample: a session whose modern `/login` is answered with a
trap, followed by a successful legacy exchange (`!done` with a hex `ret`
challenge, then `!done`). The code falls back to the legacy login on the
same session — the trace shows all three exchanges — and authentication
(and Connect) SUCCEEDS, contradicting the claim that a trap on the modern
login is a non-retryable failure with no legacy exchange attempted. -/
theorem auth_trap_fallback_counterexample :
    (authenticate ⟨[⟨"!trap", [("message", "bad")], ""⟩,
                    ⟨"!done", [("ret", "00")], ""⟩,
                    ⟨"!done", [], ""⟩], []⟩).1 = Except.ok () ∧
    (authenticate ⟨[⟨"!trap", [("message", "bad")], ""⟩,
                    ⟨"!done", [("ret", "00")], ""⟩,
                    ⟨"!done", [], ""⟩], []⟩).2.sent
      = [LoginExchange.newLogin, LoginExchange.bareLogin,
         LoginExchange.challengeResponse] ∧
    (Connect 3
        (fun _ => some ⟨[⟨"!trap", [("message", "bad")], ""⟩,
                         ⟨"!done", [("ret", "00")], ""⟩,
                         ⟨"!done", [], ""⟩], []⟩)
        (newCircuitBreaker 5 30) 1).1 = Except.ok () := by
  refine ⟨rfl, rfl, rfl⟩

/-- C1 (amended): a trap reply to the modern single-round `/login` does not
abort authentication; the client falls back to the legacy exchange on the
same session (the bare `/login` is written). Only when the legacy exchange
also yields a trap does authentication fail, as a non-retryable AuthError;
in that case Connect aborts its retry loop after the first attempt with
that error and records exactly one circuit failure. -/
theorem connect_trap_amended (trapReply r2 : Reply) (rest : List Reply)
    (retryAttempts : Nat) (cb : CircuitBreaker) (now : Nat)
    (htrap : trapReply.IsTrap = true)
    (hgate : (canAttempt now cb).1 = true) :
    (LoginExchange.bareLogin ∈ (authenticate ⟨trapReply :: r2 :: rest, []⟩).2.sent) ∧
    (r2.IsTrap = true →
      (authenticate ⟨trapReply :: r2 :: rest, []⟩).1
        = Except.error (NewAuthError r2.GetMessage) ∧
      (Connect retryAttempts (fun _ => some ⟨trapReply :: r2 :: rest, []⟩) cb now).1
        = Except.error (NewAuthError r2.GetMessage) ∧
      (Connect retryAttempts (fun _ => some ⟨trapReply :: r2 :: rest, []⟩) cb now).2.1
        = 1 ∧
      (Connect retryAttempts (fun _ => some ⟨trapReply :: r2 :: rest, []⟩) cb now).2.2.2.failures
        = cb.failures + 1 ∧
      (NewAuthError r2.GetMessage).temporary = false ∧
      IsAuthError (NewAuthError r2.GetMessage) = true) := by
  have hnew : tryNewLogin ⟨trapReply :: r2 :: rest, []⟩
      = (Except.error (NewAuthError trapReply.GetMessage),
         ⟨r2 :: rest, [LoginExchange.newLogin]⟩) := by
    simp [tryNewLogin, htrap]
  have hauth : authenticate ⟨trapReply :: r2 :: rest, []⟩
      = tryLegacyLogin ⟨r2 :: rest, [LoginExchange.newLogin]⟩ := by
    unfold authenticate
    rw [hnew]
  constructor
  · rw [hauth]
    exact tryLegacyLogin_sent_bare _
  · intro hr2
    have hleg : tryLegacyLogin ⟨r2 :: rest, [LoginExchange.newLogin]⟩
        = (Except.error (NewAuthError r2.GetMessage),
           ⟨rest, [LoginExchange.newLogin, LoginExchange.bareLogin]⟩) := by
      simp [tryLegacyLogin, hr2]
    have hauth2 : authenticate ⟨trapReply :: r2 :: rest, []⟩
        = (Except.error (NewAuthError r2.GetMessage),
           ⟨rest, [LoginExchange.newLogin, LoginExchange.bareLogin]⟩) := by
      rw [hauth, hleg]
    have hloop : connectLoop (fun _ => some ⟨trapReply :: r2 :: rest, []⟩) 0
        (retryAttempts + 1) none
        = (Except.error (NewAuthError r2.GetMessage), 1,
           [LoginExchange.newLogin, LoginExchange.bareLogin]) := by
      rw [connectLoop]
      simp only [hauth2]
      rw [if_pos (by rfl)]
    have hpair : canAttempt now cb = (true, (canAttempt now cb).2) := by
      have hp : canAttempt now cb
          = ((canAttempt now cb).1, (canAttempt now cb).2) := rfl
      rw [hp, hgate]
    have hconn : Connect retryAttempts (fun _ => some ⟨trapReply :: r2 :: rest, []⟩) cb now
        = (Except.error (NewAuthError r2.GetMessage), 1,
           [LoginExchange.newLogin, LoginExchange.bareLogin],
           recordFailure now (canAttempt now cb).2) := by
      unfold Connect
      rw [hpair, hloop]
    rw [hconn]
    refine ⟨by rw [hauth2], rfl, rfl, ?_, rfl, rfl⟩
    have h1 := (recordFailure_fields now (canAttempt now cb).2).1
    have h2 := canAttempt_failures now cb
    simp only [h1, h2]

/-- C1 witness: the amended theorem applied to a concrete trap-then-trap
session on a fresh breaker. -/
theorem connect_trap_amended_witness :
    (LoginExchange.bareLogin ∈
      (authenticate ⟨[⟨"!trap", [("message", "a")], ""⟩,
                      ⟨"!trap", [("message", "b")], ""⟩], []⟩).2.sent) ∧
    (Connect 3 (fun _ => some ⟨[⟨"!trap", [("message", "a")], ""⟩,
                               ⟨"!trap", [("message", "b")], ""⟩], []⟩)
        (newCircuitBreaker 5 30) 1).1
      = Except.error (NewAuthError (Reply.GetMessage ⟨"!trap", [("message", "b")], ""⟩)) :=
  ⟨(connect_trap_amended ⟨"!trap", [("message", "a")], ""⟩
      ⟨"!trap", [("message", "b")], ""⟩ [] 3 (newCircuitBreaker 5 30) 1
      rfl rfl).1,
   ((connect_trap_amended ⟨"!trap", [("message", "a")], ""⟩
      ⟨"!trap", [("message", "b")], ""⟩ [] 3 (newCircuitBreaker 5 30) 1
      rfl rfl).2 rfl).2.1⟩


end ISPAgent
